import Mathlib

/-!
Verification of the module-rewriting utilities of
`src/onediff_comfy_nodes/utils/diffusers_quant_utils.py`.

The Python file performs surgery on a (torch) module tree: it resolves and
rewrites submodules addressed by dotted paths, loads calibration data from a
text file, searches the tree for fusable attention blocks, fuses the three
q/k/v projections of such a block into one merged projection, and re-wraps
the result through an external quantization factory under a temporarily
overridden runtime flag.

The shallow embedding below models:
  * module trees as a rooted tree with named (attribute) children and indexed
    (sequence) children; Python exceptions as an `Except` error channel;
  * tensors as a shape list plus a flat row-major data function into `ℚ`
    (numeric dtype is carried as an abstract tag; device placement and
    gradient-tracking flags of the host framework are not modelled, no claim
    concerns them);
  * the external quantization factory (`diffusers_quant`) and the quantized
    wrapper classes as abstract parameters / record fields: only the
    constructor contract visible in this file is modelled;
  * the process-wide environment as the single flag read and written here,
    `ONEFLOW_FUSE_QUANT_TO_MATMUL` (a `String` value); `_use_graph` writes
    many further flags that are never read back in this file.
-/

/-! ## Small list helpers (assoc lists and positional lists)

Python attribute dictionaries are modelled as association lists looked up at
the first matching key; `setattr` replaces the first binding in place or
appends a new one.  Python sequence containers are modelled as plain lists
with positional read (`obj[i]`) and in-range positional write (`obj[i] = x`).
-/

def lookupAssoc {α : Type} : List (String × α) → String → Option α
  | [], _ => none
  | (k, v) :: rest, key => if k = key then some v else lookupAssoc rest key

def setAssoc {α : Type} : List (String × α) → String → α → List (String × α)
  | [], key, v => [(key, v)]
  | (k, w) :: rest, key, v =>
    if k = key then (key, v) :: rest else (k, w) :: setAssoc rest key v

def listNth {α : Type} : List α → Nat → Option α
  | [], _ => none
  | a :: _, 0 => some a
  | _ :: l, n + 1 => listNth l n

def listSet {α : Type} : List α → Nat → α → List α
  | [], _, _ => []
  | _ :: l, 0, b => b :: l
  | a :: l, n + 1, b => a :: listSet l n b

theorem lookupAssoc_setAssoc_self {α : Type} (l : List (String × α)) (k : String) (v : α) :
    lookupAssoc (setAssoc l k v) k = some v := by
  induction l with
  | nil => simp [setAssoc, lookupAssoc]
  | cons hd tl ih =>
    obtain ⟨k0, v0⟩ := hd
    by_cases h : k0 = k
    · simp [setAssoc, h, lookupAssoc]
    · simp [setAssoc, h, lookupAssoc, ih]

theorem setAssoc_self {α : Type} (l : List (String × α)) (k : String) (v : α)
    (h : lookupAssoc l k = some v) : setAssoc l k v = l := by
  induction l with
  | nil => simp [lookupAssoc] at h
  | cons hd tl ih =>
    obtain ⟨k0, v0⟩ := hd
    by_cases hk : k0 = k
    · simp [lookupAssoc, hk] at h
      simp [setAssoc, hk, h]
    · simp [lookupAssoc, hk] at h
      simp [setAssoc, hk, ih h]

theorem lookupAssoc_setAssoc_ne {α : Type} (l : List (String × α)) (k k0 : String) (v : α)
    (h : k0 ≠ k) : lookupAssoc (setAssoc l k0 v) k = lookupAssoc l k := by
  induction l with
  | nil => simp [setAssoc, lookupAssoc, h]
  | cons hd tl ih =>
    obtain ⟨k1, v1⟩ := hd
    by_cases hk : k1 = k0
    · simp [setAssoc, hk, lookupAssoc, h]
    · simp [setAssoc, hk, lookupAssoc, ih]

theorem listNth_listSet_self {α : Type} (l : List α) (n : Nat) (b : α)
    (h : n < l.length) : listNth (listSet l n b) n = some b := by
  induction l generalizing n with
  | nil => simp at h
  | cons a tl ih =>
    cases n with
    | zero => simp [listSet, listNth]
    | succ m =>
      simp [listSet, listNth]
      exact ih m (by simpa using h)

theorem listSet_self {α : Type} (l : List α) (n : Nat) (b : α)
    (h : listNth l n = some b) : listSet l n b = l := by
  induction l generalizing n with
  | nil => simp [listNth] at h
  | cons a tl ih =>
    cases n with
    | zero =>
      simp [listNth] at h
      simp [listSet, h]
    | succ m =>
      simp [listNth] at h
      simp [listSet, ih m h]

theorem listNth_lt_length {α : Type} (l : List α) (n : Nat) (b : α)
    (h : listNth l n = some b) : n < l.length := by
  induction l generalizing n with
  | nil => simp [listNth] at h
  | cons a tl ih =>
    cases n with
    | zero => simp
    | succ m =>
      simp [listNth] at h
      simpa using ih m h

/-! ## Python string primitives

The source calls Python `str.split(sep)` (with the one-character separators
`"."`, `" "` and `","`), `str.strip()` and `str.isdigit()`.  These external
builtins are modelled structurally on the character list of the string:
`split` cuts at every separator occurrence and keeps empty pieces, so
`"".split(".") == [""]` and `"a..b".split(".") == ["a", "", "b"]`.
-/

def splitChars (sep : Char) : List Char → List (List Char)
  | [] => [[]]
  | c :: cs =>
    let r := splitChars sep cs
    if c = sep then [] :: r
    else
      match r with
      | [] => [[c]]
      | hd :: tl => (c :: hd) :: tl

def pySplit (s : String) (sep : Char) : List String :=
  (splitChars sep s.data).map (fun l => ⟨l⟩)

theorem splitChars_ne_nil (sep : Char) (l : List Char) : splitChars sep l ≠ [] := by
  cases l with
  | nil => simp [splitChars]
  | cons c cs =>
    rw [splitChars]
    by_cases h : c = sep
    · simp [h]
    · simp only [if_neg h]
      cases splitChars sep cs <;> simp

theorem pySplit_ne_nil (s : String) (sep : Char) : pySplit s sep ≠ [] := by
  rw [pySplit]
  have := splitChars_ne_nil sep s.data
  cases h : splitChars sep s.data with
  | nil => exact absurd h this
  | cons hd tl => simp

/-- Python `str.strip()`: whitespace removed from both ends. -/
def pyStrip (s : String) : String :=
  ⟨((s.data.dropWhile Char.isWhitespace).reverse.dropWhile Char.isWhitespace).reverse⟩

/-! ## Data model

`Tensor` models a `torch.Tensor`: a shape, a dtype tag, and flat row-major
data.  `Calib` models one parsed calibration record (the three-element list
`[scale, bit_flag, channel_scales]` built by `_load_calibrate_info`).
`QuantInfo` models the attributes of a `StaticQuantLinearModule` /
`DynamicQuantLinearModule` wrapper that this file reads (`nbits`,
`calibrate`, `name`, and its exact class used for re-dispatch).  `Linear`
models a linear-like module; `quant = some _` marks a module wrapped by one
of the two quantized classes.
-/

structure Tensor where
  shape : List Nat
  dtype : Nat
  data : Nat → ℚ

structure Calib where
  scale : ℚ
  bit_flag : Int
  channel_scales : List ℚ
deriving DecidableEq

inductive QKind where
  | staticQuant
  | dynamicQuant
deriving DecidableEq

structure QuantInfo where
  kind : QKind
  nbits : Nat
  calibrate : Calib
  qname : String

inductive LKind where
  | comfyLinear
  | torchLinear
deriving DecidableEq

structure Linear where
  in_features : Nat
  out_features : Nat
  weight : Tensor
  bias : Option Tensor
  lkind : LKind
  quant : Option QuantInfo

/-- Python exceptions raised (or re-raised) in this file.  `moduleNotFound`
carries the message built by the path resolver; `external` models an
exception raised inside an external call such as the quantization factory. -/
inductive PyErr where
  | moduleNotFound (msg : String)
  | indexError
  | attributeError
  | valueError
  | external (msg : String)
deriving DecidableEq

/-- Node payloads of the module tree.  `pyNone` models an attribute whose
value is Python `None` (the `attn.to_k is None` checks); `crossAttn` models a
`CrossAttentionPytorch` instance with its `heads` count, and, after the
quantized fusion re-wrap, the `dim_head` whose inverse square root was
assigned to `attn.scale` (the floating-point scale value itself is not
modelled). -/
inductive Payload where
  | container
  | pyNone
  | lin (l : Linear)
  | crossAttn (heads : Nat) (scaleDimHead : Option Nat)

/-- A module tree: a payload plus named (attribute) children and indexed
(sequence) children, mirroring the spec data model of named and indexed
child slots. -/
inductive PyTree where
  | node : Payload → List (String × PyTree) → List PyTree → PyTree

def PyTree.payload : PyTree → Payload
  | .node p _ _ => p

def PyTree.attrs : PyTree → List (String × PyTree)
  | .node _ a _ => a

def PyTree.items : PyTree → List PyTree
  | .node _ _ i => i

def leafLin (l : Linear) : PyTree :=
  .node (.lin l) [] []

def PyTree.attrNode (t : PyTree) (name : String) : Option PyTree :=
  lookupAssoc t.attrs name

/-- Reads attribute `name` and requires it to be a linear-like module. -/
def PyTree.linAttr (t : PyTree) (name : String) : Option Linear :=
  match t.attrNode name with
  | some (.node (.lin l) _ _) => some l
  | _ => none

def PyTree.headsOf (t : PyTree) : Option Nat :=
  match t.payload with
  | .crossAttn heads _ => some heads
  | _ => none

def PyTree.isCrossAttn (t : PyTree) : Bool :=
  match t.payload with
  | .crossAttn _ _ => true
  | _ => false

/-! ## Path resolver: `get_sub_module` and `modify_sub_module`

Source lines 38-89.  A dotted path is split on `"."`; a segment consisting
only of digits (`part.isdigit()`) is an index into the ordered children,
any other segment is an attribute name.  `IndexError` / `AttributeError`
is converted into `ModuleNotFoundError` with the message built in the
source; the Lean model returns it through `Except`.

`modify_sub_module` mutates in place; the model threads the whole tree and
returns the (possibly updated) tree next to the `Except` outcome, so that
partial-mutation behaviour is expressible.  The loop only writes at the
final segment, which the proofs below make precise.
-/

def isPyDigit (s : String) : Bool :=
  !s.data.isEmpty && s.data.all Char.isDigit

def digitsToNat (s : String) : Nat :=
  s.data.foldl (fun n c => n * 10 + (c.toNat - 48)) 0

def notFoundMsg (part : String) : PyErr :=
  .moduleNotFound ("Submodule " ++ part ++ " not found.")

def getGo : PyTree → List String → Except PyErr PyTree
  | cur, [] => .ok cur
  | cur, part :: rest =>
    if isPyDigit part then
      match listNth cur.items (digitsToNat part) with
      | some c => getGo c rest
      | none => .error (notFoundMsg part)
    else
      match lookupAssoc cur.attrs part with
      | some c => getGo c rest
      | none => .error (notFoundMsg part)

def get_sub_module (module : PyTree) (sub_module_name : String) : Except PyErr PyTree :=
  getGo module (pySplit sub_module_name '.')

def modifyGo (new_value : PyTree) : PyTree → List String → Except PyErr Unit × PyTree
  | cur, [] => (.ok (), cur)
  | .node p attrs items, [part] =>
    if isPyDigit part then
      if digitsToNat part < items.length then
        (.ok (), .node p attrs (listSet items (digitsToNat part) new_value))
      else
        (.error (notFoundMsg part), .node p attrs items)
    else
      (.ok (), .node p (setAssoc attrs part new_value) items)
  | .node p attrs items, part :: part2 :: rest =>
    if isPyDigit part then
      match listNth items (digitsToNat part) with
      | some c =>
        let out := modifyGo new_value c (part2 :: rest)
        (out.1, .node p attrs (listSet items (digitsToNat part) out.2))
      | none => (.error (notFoundMsg part), .node p attrs items)
    else
      match lookupAssoc attrs part with
      | some c =>
        let out := modifyGo new_value c (part2 :: rest)
        (out.1, .node p (setAssoc attrs part out.2) items)
      | none => (.error (notFoundMsg part), .node p attrs items)

def modify_sub_module (module : PyTree) (sub_module_name : String) (new_value : PyTree) :
    Except PyErr Unit × PyTree :=
  modifyGo new_value module (pySplit sub_module_name '.')

/-! ## Claim C4: resolution semantics of `get_sub_module` -/

/-- Specification-side reading of path resolution, following the spec text:
each segment is either a non-negative integer (all digits), resolved by
indexed access into the ordered children, or a name, resolved by named
attribute access; resolution of a path is the chaining of its segments. -/
inductive Resolves : PyTree → List String → PyTree → Prop where
  | nil (t : PyTree) : Resolves t [] t
  | idx {t : PyTree} {part : String} {rest : List String} {c r : PyTree} :
      isPyDigit part = true → listNth t.items (digitsToNat part) = some c →
      Resolves c rest r → Resolves t (part :: rest) r
  | name {t : PyTree} {part : String} {rest : List String} {c r : PyTree} :
      isPyDigit part = false → lookupAssoc t.attrs part = some c →
      Resolves c rest r → Resolves t (part :: rest) r

theorem getGo_ok_iff (parts : List String) (t r : PyTree) :
    getGo t parts = .ok r ↔ Resolves t parts r := by
  induction parts generalizing t with
  | nil =>
    constructor
    · intro h
      simp [getGo] at h
      rw [h]
      exact Resolves.nil r
    · intro h
      cases h
      simp [getGo]
  | cons part rest ih =>
    constructor
    · intro h
      rw [getGo] at h
      by_cases hd : isPyDigit part
      · rw [if_pos hd] at h
        cases hnth : listNth t.items (digitsToNat part) with
        | none => rw [hnth] at h; exact absurd h (by simp)
        | some c =>
          rw [hnth] at h
          exact Resolves.idx hd hnth ((ih c).mp h)
      · rw [if_neg hd] at h
        cases hlk : lookupAssoc t.attrs part with
        | none => rw [hlk] at h; exact absurd h (by simp)
        | some c =>
          rw [hlk] at h
          exact Resolves.name (by simpa using hd) hlk ((ih c).mp h)
    · intro h
      cases h with
      | idx hd hnth hres =>
        rw [getGo, if_pos hd, hnth]
        exact (ih _).mpr hres
      | name hd hnth hres =>
        rw [getGo, if_neg (by simp [hd]), hnth]
        exact (ih _).mpr hres

/-- Claim C4: for every tree and dotted path, `get_sub_module` splits the
path on `"."` and resolves it segment by segment — indexed access for an
all-digits segment, named attribute access otherwise — succeeding exactly on
the paths the `Resolves` relation accepts, and failing with the not-found
error exactly when no segment-wise resolution exists.  The model is a pure
function, so resolution has no side effects. -/
theorem get_sub_module_resolves (t : PyTree) (path : String) :
    (∀ r, get_sub_module t path = .ok r ↔ Resolves t (pySplit path '.') r) ∧
    ((∃ e, get_sub_module t path = .error e) ↔ ¬ ∃ r, Resolves t (pySplit path '.') r) := by
  constructor
  · intro r
    exact getGo_ok_iff (pySplit path '.') t r
  · constructor
    · rintro ⟨e, he⟩ ⟨r, hr⟩
      have hok := (getGo_ok_iff (pySplit path '.') t r).mpr hr
      rw [get_sub_module] at he
      rw [hok] at he
      exact absurd he (by simp)
    · intro h
      cases hg : get_sub_module t path with
      | ok r =>
        exact absurd ⟨r, (getGo_ok_iff (pySplit path '.') t r).mp hg⟩ h
      | error e => exact ⟨e, rfl⟩

/-! ## Claims C5 and C10: write-then-read round trip, and atomicity on failure -/

theorem modifyGo_roundtrip (parts : List String) (t x : PyTree)
    (hne : parts ≠ []) (hok : (modifyGo x t parts).1 = .ok ()) :
    getGo (modifyGo x t parts).2 parts = .ok x := by
  induction parts generalizing t with
  | nil => exact absurd rfl hne
  | cons part rest ih =>
    obtain ⟨p, attrs, items⟩ := t
    cases rest with
    | nil =>
      rw [modifyGo] at hok ⊢
      by_cases hd : isPyDigit part
      · rw [if_pos hd] at hok ⊢
        by_cases hlt : digitsToNat part < items.length
        · rw [if_pos hlt] at hok ⊢
          rw [getGo, if_pos hd]
          have : listNth (PyTree.node p attrs (listSet items (digitsToNat part) x)).items
              (digitsToNat part) = some x := by
            simpa [PyTree.items] using listNth_listSet_self items (digitsToNat part) x hlt
          rw [this]
          rfl
        · rw [if_neg hlt] at hok
          exact absurd hok (by simp)
      · rw [if_neg hd] at hok ⊢
        rw [getGo, if_neg hd]
        have : lookupAssoc (PyTree.node p (setAssoc attrs part x) items).attrs part = some x := by
          simpa [PyTree.attrs] using lookupAssoc_setAssoc_self attrs part x
        rw [this]
        rfl
    | cons part2 rest2 =>
      rw [modifyGo] at hok ⊢
      by_cases hd : isPyDigit part
      · rw [if_pos hd] at hok ⊢
        cases hnth : listNth items (digitsToNat part) with
        | none =>
          rw [hnth] at hok
          exact absurd hok (by simp)
        | some c =>
          rw [hnth] at hok
          dsimp only at hok ⊢
          rw [getGo, if_pos hd]
          have hlt := listNth_lt_length items (digitsToNat part) c hnth
          have hset : listNth (PyTree.node p attrs
              (listSet items (digitsToNat part) (modifyGo x c (part2 :: rest2)).2)).items
              (digitsToNat part) = some (modifyGo x c (part2 :: rest2)).2 := by
            simpa [PyTree.items] using
              listNth_listSet_self items (digitsToNat part) (modifyGo x c (part2 :: rest2)).2 hlt
          rw [hset]
          exact ih c (by simp) hok
      · rw [if_neg hd] at hok ⊢
        cases hlk : lookupAssoc attrs part with
        | none =>
          rw [hlk] at hok
          exact absurd hok (by simp)
        | some c =>
          rw [hlk] at hok
          dsimp only at hok ⊢
          rw [getGo, if_neg hd]
          have hset : lookupAssoc (PyTree.node p
              (setAssoc attrs part (modifyGo x c (part2 :: rest2)).2) items).attrs part
              = some (modifyGo x c (part2 :: rest2)).2 := by
            simpa [PyTree.attrs] using
              lookupAssoc_setAssoc_self attrs part (modifyGo x c (part2 :: rest2)).2
          rw [hset]
          exact ih c (by simp) hok

/-- Claim C5: for every tree, every dotted path valid in that tree and every
node `x`, once `modify_sub_module` (rebind) succeeds, `get_sub_module`
(resolve) along the same path returns exactly the written node `x`. -/
theorem rebind_then_resolve (t : PyTree) (p : String) (x : PyTree)
    (hvalid : ∃ n0, get_sub_module t p = .ok n0)
    (hok : (modify_sub_module t p x).1 = .ok ()) :
    get_sub_module (modify_sub_module t p x).2 p = .ok x := by
  rw [modify_sub_module] at hok ⊢
  rw [get_sub_module]
  exact modifyGo_roundtrip (pySplit p '.') t x (pySplit_ne_nil p '.') hok

theorem modifyGo_error_unchanged (parts : List String) (t x : PyTree) (e : PyErr)
    (herr : (modifyGo x t parts).1 = .error e) : (modifyGo x t parts).2 = t := by
  induction parts generalizing t with
  | nil => exact absurd herr (by simp [modifyGo])
  | cons part rest ih =>
    obtain ⟨p, attrs, items⟩ := t
    cases rest with
    | nil =>
      rw [modifyGo] at herr ⊢
      by_cases hd : isPyDigit part
      · rw [if_pos hd] at herr ⊢
        by_cases hlt : digitsToNat part < items.length
        · rw [if_pos hlt] at herr
          exact absurd herr (by simp)
        · rw [if_neg hlt] at herr ⊢
      · rw [if_neg hd] at herr
        exact absurd herr (by simp)
    | cons part2 rest2 =>
      rw [modifyGo] at herr ⊢
      by_cases hd : isPyDigit part
      · rw [if_pos hd] at herr ⊢
        cases hnth : listNth items (digitsToNat part) with
        | none => rfl
        | some c =>
          rw [hnth] at herr
          dsimp only at herr ⊢
          have hrec : (modifyGo x c (part2 :: rest2)).1 = .error e := herr
          have hc := ih c hrec
          rw [hc]
          rw [listSet_self items (digitsToNat part) c hnth]
      · rw [if_neg hd] at herr ⊢
        cases hlk : lookupAssoc attrs part with
        | none => rfl
        | some c =>
          rw [hlk] at herr
          dsimp only at herr ⊢
          have hrec : (modifyGo x c (part2 :: rest2)).1 = .error e := herr
          have hc := ih c hrec
          rw [hc]
          rw [setAssoc_self attrs part c hlk]

/-- Claim C10: when `modify_sub_module` (rebind) fails with the not-found
error, the tree is returned completely unchanged; in particular a failure at
a segment before the final one never leaves a partial write, because the
only write the loop performs is at the final segment.  (The theorem is
stated for every failure, which includes the claimed pre-final-segment
failures.) -/
theorem rebind_error_leaves_tree_unchanged (t : PyTree) (p : String) (x : PyTree) (e : PyErr)
    (herr : (modify_sub_module t p x).1 = .error e) :
    (modify_sub_module t p x).2 = t := by
  rw [modify_sub_module] at herr ⊢
  exact modifyGo_error_unchanged (pySplit p '.') t x e herr

/-! Concrete resolver examples used by the witnesses. -/

def exNodeLeaf : PyTree :=
  .node .container [] []

def exTreeResolver : PyTree :=
  .node .container [("a", .node .container [] [exNodeLeaf, exNodeLeaf])] []

def exNewNode : PyTree :=
  .node .pyNone [] []

/-- Witness for claim C5 at a concrete tree and the two-segment path
`"a.1"` (a named segment followed by an indexed segment). -/
theorem rebind_then_resolve_check :
    get_sub_module (modify_sub_module exTreeResolver "a.1" exNewNode).2 "a.1"
      = .ok exNewNode :=
  rebind_then_resolve exTreeResolver "a.1" exNewNode ⟨exNodeLeaf, rfl⟩ rfl

/-- Witness for claim C10 at a concrete tree and the path `"a.9.b"`, whose
middle (pre-final) segment is an out-of-range index: the rebind fails with
the not-found error and the returned tree is the unchanged original. -/
theorem rebind_error_check :
    (modify_sub_module exTreeResolver "a.9.b" exNewNode).2 = exTreeResolver :=
  rebind_error_leaves_tree_unchanged exTreeResolver "a.9.b" exNewNode
    (notFoundMsg "9") rfl

/-! ## Calibration loader: `_load_calibrate_info`

Source lines 92-103.  Each stripped line is split on single spaces into
`<submodule_path> <scale> <bit_flag> <comma_separated_channel_scales>`;
the scale is parsed as a Python float, the bit flag as a Python int, and the
fourth field is split on commas with every piece parsed as a float.  Records
are stored into a dict keyed by the first field verbatim (later lines with
the same key overwrite).  A missing field raises `IndexError`, an
unparseable number raises `ValueError`; both abort the load (there is no
handler in the source), which the model returns as `Except.error`.

Python `float(...)` / `int(...)` are external builtins; they are modelled on
plain decimal literals with an optional sign (scientific notation and the
other exotic float spellings never occur in calibration files and are out of
the model, which makes the parse functions partial in the same way on the
inputs that matter: a non-numeric field is rejected).  Parsed floats are
represented as rationals.
-/

def charsToNat (cs : List Char) : Nat :=
  cs.foldl (fun n c => n * 10 + (c.toNat - 48)) 0

def parseUnsignedFloat (cs : List Char) : Option ℚ :=
  match splitChars '.' cs with
  | [ip] =>
    if !ip.isEmpty && ip.all Char.isDigit then some ((charsToNat ip : ℚ)) else none
  | [ip, fp] =>
    if ip.all Char.isDigit && fp.all Char.isDigit && !(ip.isEmpty && fp.isEmpty) then
      some ((charsToNat ip : ℚ) + (charsToNat fp : ℚ) / (10 : ℚ) ^ fp.length)
    else none
  | _ => none

def parseFloat (s : String) : Option ℚ :=
  match s.data with
  | '-' :: rest => (parseUnsignedFloat rest).map (fun q => -q)
  | '+' :: rest => parseUnsignedFloat rest
  | cs => parseUnsignedFloat cs

def parseInt (s : String) : Option Int :=
  match s.data with
  | '-' :: rest =>
    if !rest.isEmpty && rest.all Char.isDigit then some (-(charsToNat rest : Int)) else none
  | '+' :: rest =>
    if !rest.isEmpty && rest.all Char.isDigit then some ((charsToNat rest : Int)) else none
  | cs =>
    if !cs.isEmpty && cs.all Char.isDigit then some ((charsToNat cs : Int)) else none

def mapFloats : List String → Option (List ℚ)
  | [] => some []
  | s :: rest =>
    match parseFloat s, mapFloats rest with
    | some q, some qs => some (q :: qs)
    | _, _ => none

/-- One iteration of the `_load_calibrate_info` loop: strip the line, split
on spaces, and parse fields 1-3, in the evaluation order of the source
(`items[1]`, `float`, `items[2]`, `int`, `items[3]`, the comprehension). -/
def parseLine (line : String) : Except PyErr (String × Calib) :=
  match pySplit (pyStrip line) ' ' with
  | [] => .error .indexError
  | i0 :: rest =>
    match rest with
    | [] => .error .indexError
    | i1 :: rest2 =>
      match parseFloat i1 with
      | none => .error .valueError
      | some sc =>
        match rest2 with
        | [] => .error .indexError
        | i2 :: rest3 =>
          match parseInt i2 with
          | none => .error .valueError
          | some bf =>
            match rest3 with
            | [] => .error .indexError
            | i3 :: _ =>
              match mapFloats (pySplit i3 ',') with
              | none => .error .valueError
              | some cs => .ok (i0, ⟨sc, bf, cs⟩)

def loadGo : List String → List (String × Calib) → Except PyErr (List (String × Calib))
  | [], acc => .ok acc
  | line :: rest, acc =>
    match parseLine line with
    | .error e => .error e
    | .ok kv => loadGo rest (setAssoc acc kv.1 kv.2)

/-- The loader, over the list of lines of the file (reading the file itself
is the I/O boundary of the model). -/
def _load_calibrate_info (lines : List String) : Except PyErr (List (String × Calib)) :=
  loadGo lines []

/-- First space-separated field of a stripped line. -/
def calKey (line : String) : String :=
  match pySplit (pyStrip line) ' ' with
  | [] => ""
  | i0 :: _ => i0

theorem parseLine_ok_shape (l : String) (kv : String × Calib)
    (h : parseLine l = .ok kv) :
    ∃ (f0 f1 f2 f3 : String) (rest : List String) (sc : ℚ) (bf : Int) (cs : List ℚ),
      pySplit (pyStrip l) ' ' = f0 :: f1 :: f2 :: f3 :: rest ∧
      parseFloat f1 = some sc ∧ parseInt f2 = some bf ∧
      mapFloats (pySplit f3 ',') = some cs ∧ kv = (f0, ⟨sc, bf, cs⟩) := by
  unfold parseLine at h
  split at h
  · exact absurd h (by simp)
  rename_i i0 rest heq
  split at h
  · exact absurd h (by simp)
  rename_i i1 rest2
  split at h
  · exact absurd h (by simp)
  rename_i sc hf1
  split at h
  · exact absurd h (by simp)
  rename_i i2 rest3
  split at h
  · exact absurd h (by simp)
  rename_i bf hf2
  split at h
  · exact absurd h (by simp)
  rename_i i3 rest4
  split at h
  · exact absurd h (by simp)
  rename_i cs hf3
  simp at h
  exact ⟨i0, i1, i2, i3, rest4, sc, bf, cs, heq, hf1, hf2, hf3, h.symm⟩

theorem parseLine_key (line : String) (kv : String × Calib)
    (h : parseLine line = .ok kv) : kv.1 = calKey line := by
  obtain ⟨f0, f1, f2, f3, rest, sc, bf, cs, hsplit, _, _, _, hkv⟩ :=
    parseLine_ok_shape line kv h
  rw [hkv, calKey, hsplit]

theorem parseLine_of_fields (l : String) (f0 f1 f2 f3 : String) (rest : List String)
    (sc : ℚ) (bf : Int) (cs : List ℚ)
    (hsplit : pySplit (pyStrip l) ' ' = f0 :: f1 :: f2 :: f3 :: rest)
    (hf1 : parseFloat f1 = some sc) (hf2 : parseInt f2 = some bf)
    (hf3 : mapFloats (pySplit f3 ',') = some cs) :
    parseLine l = .ok (f0, ⟨sc, bf, cs⟩) := by
  simp only [parseLine, hsplit, hf1, hf2, hf3]

theorem loadGo_preserves (lines : List String) (key : String)
    (hne : ∀ l ∈ lines, ∀ kv : String × Calib, parseLine l = .ok kv → kv.1 ≠ key) :
    ∀ acc m, loadGo lines acc = .ok m → lookupAssoc m key = lookupAssoc acc key := by
  induction lines with
  | nil =>
    intro acc m h
    rw [loadGo] at h
    simp at h
    rw [h]
  | cons l0 rest ih =>
    intro acc m h
    rw [loadGo] at h
    cases hp : parseLine l0 with
    | error e => rw [hp] at h; exact absurd h (by simp)
    | ok kv =>
      rw [hp] at h
      have hkey := hne l0 (by simp) kv hp
      have := ih (fun l hl kv hkv => hne l (by simp [hl]) kv hkv) (setAssoc acc kv.1 kv.2) m h
      rw [this]
      exact lookupAssoc_setAssoc_ne acc key kv.1 kv.2 hkey

theorem loadGo_wellformed (lines : List String)
    (hwf : ∀ l ∈ lines, ∃ kv, parseLine l = .ok kv)
    (hnd : (lines.map calKey).Nodup) :
    ∀ acc, ∃ m, loadGo lines acc = .ok m ∧
      ∀ l, l ∈ lines → ∀ (f0 f1 f2 f3 : String) (rest : List String)
        (sc : ℚ) (bf : Int) (cs : List ℚ),
        pySplit (pyStrip l) ' ' = f0 :: f1 :: f2 :: f3 :: rest →
        parseFloat f1 = some sc → parseInt f2 = some bf →
        mapFloats (pySplit f3 ',') = some cs →
        lookupAssoc m f0 = some ⟨sc, bf, cs⟩ := by
  induction lines with
  | nil =>
    intro acc
    exact ⟨acc, by rw [loadGo], by simp⟩
  | cons l0 rest ih =>
    intro acc
    obtain ⟨kv0, hkv0⟩ := hwf l0 (by simp)
    have hwfr : ∀ l ∈ rest, ∃ kv, parseLine l = .ok kv :=
      fun l hl => hwf l (by simp [hl])
    have hndr : (rest.map calKey).Nodup := by
      simp at hnd
      exact hnd.2
    obtain ⟨m, hm, hlook⟩ := ih hwfr hndr (setAssoc acc kv0.1 kv0.2)
    refine ⟨m, ?_, ?_⟩
    · rw [loadGo, hkv0]
      exact hm
    · intro l hl f0 f1 f2 f3 rest4 sc bf cs hsplit hf1 hf2 hf3
      rcases List.mem_cons.mp hl with h0 | hr
      · subst h0
        have hok := parseLine_of_fields l f0 f1 f2 f3 rest4 sc bf cs hsplit hf1 hf2 hf3
        rw [hkv0] at hok
        have hkv0eq : kv0 = (f0, ⟨sc, bf, cs⟩) := by
          simpa using hok
        have hkeys : ∀ l2 ∈ rest, ∀ kv : String × Calib, parseLine l2 = .ok kv → kv.1 ≠ f0 := by
          intro l2 hl2 kv hkv heq
          have h1 : calKey l2 = f0 := by rw [← parseLine_key l2 kv hkv, heq]
          have h2 : calKey l = f0 := by
            rw [← parseLine_key l kv0 hkv0, hkv0eq]
          simp at hnd
          exact hnd.1 l2 hl2 (by rw [h1, h2])
        have hpres := loadGo_preserves rest f0 hkeys (setAssoc acc kv0.1 kv0.2) m hm
        rw [hpres, hkv0eq]
        exact lookupAssoc_setAssoc_self acc f0 ⟨sc, bf, cs⟩
      · exact hlook l hr f0 f1 f2 f3 rest4 sc bf cs hsplit hf1 hf2 hf3

/-- Claim C6: on a well-formed calibration file (every line parses, keys
distinct), the loader returns a mapping keyed by each line's first field
verbatim, whose value holds the second field parsed as a float scale, the
third as an integer bit flag, and the fourth split on commas with each piece
parsed as a float. -/
theorem load_calibrate_wellformed (lines : List String)
    (hwf : ∀ l ∈ lines, ∃ kv, parseLine l = .ok kv)
    (hnd : (lines.map calKey).Nodup) :
    ∃ info, _load_calibrate_info lines = .ok info ∧
      ∀ l, l ∈ lines → ∀ (f0 f1 f2 f3 : String) (rest : List String)
        (sc : ℚ) (bf : Int) (cs : List ℚ),
        pySplit (pyStrip l) ' ' = f0 :: f1 :: f2 :: f3 :: rest →
        parseFloat f1 = some sc → parseInt f2 = some bf →
        mapFloats (pySplit f3 ',') = some cs →
        lookupAssoc info f0 = some ⟨sc, bf, cs⟩ := by
  rw [_load_calibrate_info]
  exact loadGo_wellformed lines hwf hnd []

/-- Witness for claim C6: the single-record file
`"a.b 0.5 8 1.0,2.0,3.0"` yields exactly the mapping
`{"a.b" ↦ (scale 1/2, bit flag 8, channel scales [1, 2, 3])}`. -/
theorem load_calibrate_wellformed_check :
    ∃ info, _load_calibrate_info ["a.b 0.5 8 1.0,2.0,3.0"] = .ok info ∧
      lookupAssoc info "a.b" = some ⟨1 / 2, 8, [1, 2, 3]⟩ := by
  obtain ⟨info, h1, h2⟩ := load_calibrate_wellformed ["a.b 0.5 8 1.0,2.0,3.0"]
    (by intro l hl; rw [List.mem_singleton] at hl; subst hl; exact ⟨_, rfl⟩)
    (by simp)
  refine ⟨info, h1, ?_⟩
  have h3 := h2 "a.b 0.5 8 1.0,2.0,3.0" (by simp) "a.b" "0.5" "8" "1.0,2.0,3.0" []
    _ _ _ rfl rfl rfl rfl
  rw [h3]
  have e0 : '0'.toNat = 48 := rfl
  have e1 : '1'.toNat = 49 := rfl
  have e2 : '2'.toNat = 50 := rfl
  have e3 : '3'.toNat = 51 := rfl
  have e5 : '5'.toNat = 53 := rfl
  have e8 : '8'.toNat = 56 := rfl
  simp only [charsToNat, List.foldl, List.length, e0, e1, e2, e3, e5, e8]
  norm_num

theorem mapFloats_mem (L : List String) (qs : List ℚ) (g : String)
    (h : mapFloats L = some qs) (hg : g ∈ L) : ∃ q, parseFloat g = some q := by
  induction L generalizing qs with
  | nil => simp at hg
  | cons s rest ih =>
    rw [mapFloats] at h
    cases hp : parseFloat s with
    | none => rw [hp] at h; exact absurd h (by simp)
    | some q =>
      rw [hp] at h
      cases hm : mapFloats rest with
      | none => rw [hm] at h; exact absurd h (by simp)
      | some qs2 =>
        rcases List.mem_cons.mp hg with h0 | hr
        · exact ⟨q, by rw [h0]; exact hp⟩
        · exact ih qs2 hm hr

/-- A line that the claim calls malformed: fewer than four space-separated
fields, or a numeric field (positions 1, 2, or a comma piece of position 3)
that does not parse. -/
def badCalLine (l : String) : Prop :=
  (pySplit (pyStrip l) ' ').length < 4 ∨
  (∃ f, listNth (pySplit (pyStrip l) ' ') 1 = some f ∧ parseFloat f = none) ∨
  (∃ f, listNth (pySplit (pyStrip l) ' ') 2 = some f ∧ parseInt f = none) ∨
  (∃ f g, listNth (pySplit (pyStrip l) ' ') 3 = some f ∧ g ∈ pySplit f ',' ∧
    parseFloat g = none)

theorem parseLine_error_of_bad (l : String) (hbad : badCalLine l) :
    ∃ e, parseLine l = .error e := by
  cases hp : parseLine l with
  | error e => exact ⟨e, rfl⟩
  | ok kv =>
    exfalso
    obtain ⟨f0, f1, f2, f3, rest, sc, bf, cs, hsplit, hf1, hf2, hf3, _⟩ :=
      parseLine_ok_shape l kv hp
    rcases hbad with h | ⟨f, hnth, hpf⟩ | ⟨f, hnth, hpi⟩ | ⟨f, g, hnth, hgmem, hpf⟩
    · rw [hsplit] at h
      simp at h
      omega
    · rw [hsplit] at hnth
      simp [listNth] at hnth
      subst hnth
      rw [hf1] at hpf
      exact absurd hpf (by simp)
    · rw [hsplit] at hnth
      simp [listNth] at hnth
      subst hnth
      rw [hf2] at hpi
      exact absurd hpi (by simp)
    · rw [hsplit] at hnth
      simp [listNth] at hnth
      subst hnth
      obtain ⟨q, hq⟩ := mapFloats_mem (pySplit f3 ',') cs g hf3 hgmem
      rw [hq] at hpf
      exact absurd hpf (by simp)

theorem loadGo_error_of_line (lines : List String) (l : String) (hl : l ∈ lines)
    (hfail : ∃ e0, parseLine l = .error e0) :
    ∀ acc, ∃ e, loadGo lines acc = .error e := by
  induction lines with
  | nil => simp at hl
  | cons l0 rest ih =>
    intro acc
    rw [loadGo]
    cases hp : parseLine l0 with
    | error e => exact ⟨e, rfl⟩
    | ok kv =>
      rcases List.mem_cons.mp hl with h0 | hr
      · subst h0
        obtain ⟨e0, he0⟩ := hfail
        rw [hp] at he0
        exact absurd he0 (by simp)
      · exact ih hr (setAssoc acc kv.1 kv.2)

/-- Claim C7: the loader fails at load time on every input file that
contains a line with fewer than four space-separated fields or with a
numeric field that does not parse. -/
theorem load_calibrate_malformed (lines : List String) (l : String)
    (hl : l ∈ lines) (hbad : badCalLine l) :
    ∃ e, _load_calibrate_info lines = .error e := by
  rw [_load_calibrate_info]
  exact loadGo_error_of_line lines l hl (parseLine_error_of_bad l hbad) []

/-- Witness for claim C7: a line with only three fields makes the load
fail. -/
theorem load_calibrate_malformed_check :
    ∃ e, _load_calibrate_info ["a.b 0.5 8"] = .error e :=
  load_calibrate_malformed ["a.b 0.5 8"] "a.b 0.5 8" (by simp)
    (Or.inl (by decide))

/-! ## Module matcher: `search_modules`

Source lines 106-121.  The search visits a node, returns the singleton
`{name: node}` when the predicate matches (descending no further), and
otherwise unions the recursive results over `named_children()`.  In torch,
`named_children` yields every registered child submodule: attribute children
under their attribute name and container entries under their decimal index.
The accumulated name extends by `".<child_name>"`, except at the root where
it is the bare child name.  Result dictionaries from disjoint subtrees have
disjoint path keys, so the dict union is modelled as list concatenation.
-/

def extendName (name child_name : String) : String :=
  if name = "" then child_name else name ++ "." ++ child_name

mutual
def search_modules (root : PyTree) (match_fn : PyTree → Bool) (name : String) :
    List (String × PyTree) :=
  match root with
  | .node p attrs items =>
    if match_fn (.node p attrs items) then [(name, .node p attrs items)]
    else searchAttrs match_fn attrs name ++ searchItems match_fn 0 items name
termination_by sizeOf root

def searchAttrs (match_fn : PyTree → Bool) (children : List (String × PyTree))
    (name : String) : List (String × PyTree) :=
  match children with
  | [] => []
  | (cn, c) :: rest =>
    search_modules c match_fn (extendName name cn) ++ searchAttrs match_fn rest name
termination_by sizeOf children

def searchItems (match_fn : PyTree → Bool) (i : Nat) (children : List PyTree)
    (name : String) : List (String × PyTree) :=
  match children with
  | [] => []
  | c :: rest =>
    search_modules c match_fn (extendName name (toString i)) ++
      searchItems match_fn (i + 1) rest name
termination_by sizeOf children
end

/-- Specification-side reading of the matcher, following the spec text: a
pair `(path, node)` is produced exactly when `node` matches the predicate at
accumulated path `path`, reached through children of nodes that do not
themselves match (a match is a leaf of the search). -/
inductive Frontier (match_fn : PyTree → Bool) : PyTree → String → String × PyTree → Prop where
  | here {t : PyTree} {name : String} :
      match_fn t = true → Frontier match_fn t name (name, t)
  | viaAttr {p : Payload} {attrs : List (String × PyTree)} {items : List PyTree}
      {name cn : String} {c : PyTree} {res : String × PyTree} :
      match_fn (.node p attrs items) = false → (cn, c) ∈ attrs →
      Frontier match_fn c (extendName name cn) res →
      Frontier match_fn (.node p attrs items) name res
  | viaItem {p : Payload} {attrs : List (String × PyTree)} {items : List PyTree}
      {name : String} {idx : Nat} {c : PyTree} {res : String × PyTree} :
      match_fn (.node p attrs items) = false → listNth items idx = some c →
      Frontier match_fn c (extendName name (toString idx)) res →
      Frontier match_fn (.node p attrs items) name res

theorem sizeOf_mem_attrs {cn : String} {c : PyTree} {attrs : List (String × PyTree)}
    (h : (cn, c) ∈ attrs) : sizeOf c < sizeOf attrs := by
  induction attrs with
  | nil => simp at h
  | cons hd tl ih =>
    rcases List.mem_cons.mp h with h0 | hr
    · obtain ⟨c1, c2⟩ := hd
      simp at h0
      simp [h0.2]
      omega
    · have := ih hr
      simp
      omega

theorem sizeOf_listNth {c : PyTree} {items : List PyTree} {j : Nat}
    (h : listNth items j = some c) : sizeOf c < sizeOf items := by
  induction items generalizing j with
  | nil => simp [listNth] at h
  | cons hd tl ih =>
    cases j with
    | zero =>
      simp [listNth] at h
      simp [← h]
      omega
    | succ m =>
      simp [listNth] at h
      have := ih h
      simp
      omega

theorem searchAttrs_mem (match_fn : PyTree → Bool) (children : List (String × PyTree))
    (name : String) (res : String × PyTree) :
    res ∈ searchAttrs match_fn children name ↔
      ∃ cn c, (cn, c) ∈ children ∧ res ∈ search_modules c match_fn (extendName name cn) := by
  induction children with
  | nil => simp [searchAttrs]
  | cons hd tl ih =>
    obtain ⟨cn0, c0⟩ := hd
    rw [searchAttrs]
    simp only [List.mem_append, ih, List.mem_cons]
    constructor
    · rintro (h0 | ⟨cn, c, hmem, hin⟩)
      · exact ⟨cn0, c0, Or.inl rfl, h0⟩
      · exact ⟨cn, c, Or.inr hmem, hin⟩
    · rintro ⟨cn, c, h0 | hmem, hin⟩
      · injection h0 with h1 h2
        subst h1
        subst h2
        exact Or.inl hin
      · exact Or.inr ⟨cn, c, hmem, hin⟩

theorem searchItems_mem (match_fn : PyTree → Bool) (children : List PyTree)
    (i : Nat) (name : String) (res : String × PyTree) :
    res ∈ searchItems match_fn i children name ↔
      ∃ j c, listNth children j = some c ∧
        res ∈ search_modules c match_fn (extendName name (toString (i + j))) := by
  induction children generalizing i with
  | nil => simp [searchItems, listNth]
  | cons hd tl ih =>
    rw [searchItems]
    simp only [List.mem_append, ih]
    constructor
    · rintro (h0 | ⟨j, c, hnth, hin⟩)
      · exact ⟨0, hd, by simp [listNth], by simpa using h0⟩
      · refine ⟨j + 1, c, by simpa [listNth] using hnth, ?_⟩
        have : i + (j + 1) = i + 1 + j := by omega
        rw [this]
        exact hin
    · rintro ⟨j, c, hnth, hin⟩
      cases j with
      | zero =>
        simp [listNth] at hnth
        subst hnth
        exact Or.inl (by simpa using hin)
      | succ m =>
        simp [listNth] at hnth
        refine Or.inr ⟨m, c, hnth, ?_⟩
        have : i + 1 + m = i + (m + 1) := by omega
        rw [this]
        exact hin

theorem searchFrontierAux (match_fn : PyTree → Bool) :
    ∀ (n : Nat) (root : PyTree), sizeOf root ≤ n → ∀ (name : String) (res : String × PyTree),
      (res ∈ search_modules root match_fn name ↔ Frontier match_fn root name res) := by
  intro n
  induction n with
  | zero =>
    intro root hsz
    obtain ⟨p, attrs, items⟩ := root
    simp at hsz
  | succ n ih =>
    intro root hsz name res
    obtain ⟨p, attrs, items⟩ := root
    rw [search_modules]
    by_cases hm : match_fn (.node p attrs items) = true
    · rw [if_pos hm]
      constructor
      · intro h
        simp at h
        rw [h]
        exact Frontier.here hm
      · intro h
        cases h with
        | here h2 => exact List.mem_singleton.mpr rfl
        | viaAttr h2 hmem hf => rw [hm] at h2; exact absurd h2 (by simp)
        | viaItem h2 hnth hf => rw [hm] at h2; exact absurd h2 (by simp)
    · rw [if_neg hm]
      have hm2 : match_fn (.node p attrs items) = false := by
        cases hb : match_fn (.node p attrs items)
        · rfl
        · exact absurd hb hm
      have hszattrs : sizeOf attrs ≤ n := by simp at hsz; omega
      have hszitems : sizeOf items ≤ n := by simp at hsz; omega
      simp only [List.mem_append, searchAttrs_mem, searchItems_mem]
      constructor
      · rintro (⟨cn, c, hmem, hin⟩ | ⟨j, c, hnth, hin⟩)
        · have hc : sizeOf c ≤ n := le_of_lt (lt_of_lt_of_le (sizeOf_mem_attrs hmem) hszattrs)
          exact Frontier.viaAttr hm2 hmem ((ih c hc _ res).mp hin)
        · have hc : sizeOf c ≤ n := le_of_lt (lt_of_lt_of_le (sizeOf_listNth hnth) hszitems)
          exact Frontier.viaItem hm2 hnth ((ih c hc _ res).mp (by simpa using hin))
      · intro h
        cases h with
        | here h2 => rw [hm2] at h2; exact absurd h2 (by simp)
        | viaAttr h2 hmem hf =>
          have hc := le_of_lt (lt_of_lt_of_le (sizeOf_mem_attrs hmem) hszattrs)
          exact Or.inl ⟨_, _, hmem, (ih _ hc _ res).mpr hf⟩
        | viaItem h2 hnth hf =>
          have hc := le_of_lt (lt_of_lt_of_le (sizeOf_listNth hnth) hszitems)
          exact Or.inr ⟨_, _, hnth, by simpa using (ih _ hc _ res).mpr hf⟩

/-- Claim C8: the matcher returns exactly the pairs accepted by the
`Frontier` relation — a node is returned, keyed by its accumulated dotted
path, precisely when the predicate holds of it and of no node above it on
the way down (the search never descends into the children of a node once it
matches, so a matching descendant of a matching parent never appears). -/
theorem search_modules_frontier (root : PyTree) (match_fn : PyTree → Bool)
    (name : String) (res : String × PyTree) :
    res ∈ search_modules root match_fn name ↔ Frontier match_fn root name res :=
  searchFrontierAux match_fn (sizeOf root) root (le_refl _) name res

/-! ## Fusability predicate: `_can_use_flash_attn`

Source lines 124-146.  The checks, in source order: the per-head dimension
`to_q.out_features // heads` must be 40 or 64; `to_k` and `to_v` must not be
`None`; none of the three projections may have a bias; all three must share
`in_features`; all three weights must share a dtype.  The model reads
`to_q`, `to_k`, `to_v` and `heads` from the attention node; on a node
missing these attributes (or carrying a non-linear, non-`None` value in
`to_k`/`to_v`) Python would raise `AttributeError` out of the predicate —
such nodes do not arise for genuine attention blocks, and the model returns
`false` there.  Python integer division by zero would raise; the claim
theorem is therefore stated for a positive head count.
-/

def PyTree.isNone (t : PyTree) : Bool :=
  match t.payload with
  | .pyNone => true
  | _ => false

def _can_use_flash_attn (attn : PyTree) : Bool :=
  match attn.headsOf, attn.linAttr "to_q" with
  | some heads, some q =>
    let dim_head := q.out_features / heads
    if dim_head ≠ 40 ∧ dim_head ≠ 64 then false
    else
      match attn.attrNode "to_k", attn.attrNode "to_v" with
      | some nk, some nv =>
        if nk.isNone || nv.isNone then false
        else
          match nk, nv with
          | .node (.lin k) _ _, .node (.lin v) _ _ =>
            if q.bias.isSome || k.bias.isSome || v.bias.isSome then false
            else if q.in_features ≠ k.in_features ∨ q.in_features ≠ v.in_features then false
            else if ¬ (q.weight.dtype = k.weight.dtype ∧ q.weight.dtype = v.weight.dtype) then
              false
            else true
          | _, _ => false
      | _, _ => false
  | _, _ => false

/-- Claim C3: for an attention block with a positive head count, the
fusability predicate returns `true` exactly when the per-head dimension is
40 or 64, the key and value projections are present (linear, not `None`),
none of the three projections has a bias, all three share `in_features`,
and all three weights share a dtype. -/
theorem can_use_flash_attn_iff (attn : PyTree) (heads : Nat) (q : Linear)
    (nk nv : PyTree)
    (hh : attn.headsOf = some heads) (hpos : 0 < heads)
    (hq : attn.linAttr "to_q" = some q)
    (hk : attn.attrNode "to_k" = some nk) (hv : attn.attrNode "to_v" = some nv) :
    _can_use_flash_attn attn = true ↔
      ((q.out_features / heads = 40 ∨ q.out_features / heads = 64) ∧
       ∃ k v, nk.payload = .lin k ∧ nv.payload = .lin v ∧
         q.bias = none ∧ k.bias = none ∧ v.bias = none ∧
         k.in_features = q.in_features ∧ v.in_features = q.in_features ∧
         k.weight.dtype = q.weight.dtype ∧ v.weight.dtype = q.weight.dtype) := by
  rw [_can_use_flash_attn, hh, hq, hk, hv]
  dsimp only
  by_cases hdim : q.out_features / heads ≠ 40 ∧ q.out_features / heads ≠ 64
  · rw [if_pos hdim]
    constructor
    · intro h
      exact absurd h (by simp)
    · rintro ⟨h40 | h64, _⟩
      · exact absurd h40 hdim.1
      · exact absurd h64 hdim.2
  · rw [if_neg hdim]
    have hor : q.out_features / heads = 40 ∨ q.out_features / heads = 64 := by
      by_cases h40 : q.out_features / heads = 40
      · exact Or.inl h40
      · by_cases h64 : q.out_features / heads = 64
        · exact Or.inr h64
        · exact absurd ⟨h40, h64⟩ hdim
    obtain ⟨pk, ka, ki⟩ := nk
    obtain ⟨pv, va, vi⟩ := nv
    cases pk with
    | pyNone =>
      constructor
      · intro h
        rw [show (PyTree.node .pyNone ka ki).isNone = true from rfl] at h
        simp at h
      · rintro ⟨_, k, v, hpk, _⟩
        exact absurd hpk (by simp [PyTree.payload])
    | container =>
      constructor
      · intro h
        simp [PyTree.isNone, PyTree.payload] at h
      · rintro ⟨_, k, v, hpk, _⟩
        exact absurd hpk (by simp [PyTree.payload])
    | crossAttn h2 s2 =>
      constructor
      · intro h
        simp [PyTree.isNone, PyTree.payload] at h
      · rintro ⟨_, k, v, hpk, _⟩
        exact absurd hpk (by simp [PyTree.payload])
    | lin k =>
      cases pv with
      | pyNone =>
        constructor
        · intro h
          simp [PyTree.isNone, PyTree.payload] at h
        · rintro ⟨_, k2, v2, _, hpv, _⟩
          exact absurd hpv (by simp [PyTree.payload])
      | container =>
        constructor
        · intro h
          simp [PyTree.isNone, PyTree.payload] at h
        · rintro ⟨_, k2, v2, _, hpv, _⟩
          exact absurd hpv (by simp [PyTree.payload])
      | crossAttn h2 s2 =>
        constructor
        · intro h
          simp [PyTree.isNone, PyTree.payload] at h
        · rintro ⟨_, k2, v2, _, hpv, _⟩
          exact absurd hpv (by simp [PyTree.payload])
      | lin v =>
        rw [show ((PyTree.node (.lin k) ka ki).isNone ||
          (PyTree.node (.lin v) va vi).isNone) = false from rfl]
        dsimp only [Bool.false_eq_true, if_false]
        constructor
        · intro h
          by_cases hb : q.bias.isSome || k.bias.isSome || v.bias.isSome
          · rw [if_pos hb] at h
            exact absurd h (by simp)
          · rw [if_neg hb] at h
            by_cases hin : q.in_features ≠ k.in_features ∨ q.in_features ≠ v.in_features
            · rw [if_pos hin] at h
              exact absurd h (by simp)
            · rw [if_neg hin] at h
              by_cases hdt : ¬ (q.weight.dtype = k.weight.dtype ∧ q.weight.dtype = v.weight.dtype)
              · rw [if_pos hdt] at h
                exact absurd h (by simp)
              · push_neg at hin hdt
                simp at hb
                refine ⟨hor, k, v, rfl, rfl, ?_, ?_, ?_, hin.1.symm, hin.2.symm,
                  hdt.1.symm, hdt.2.symm⟩
                · exact hb.1.1
                · exact hb.1.2
                · exact hb.2
        · rintro ⟨_, k2, v2, hpk, hpv, hqb, hkb, hvb, hkin, hvin, hkd, hvd⟩
          have hkk : k2 = k := by
            have := hpk
            simp [PyTree.payload] at this
            exact this.symm
          have hvv : v2 = v := by
            have := hpv
            simp [PyTree.payload] at this
            exact this.symm
          subst hkk
          subst hvv
          have c1 : ¬ ((q.bias.isSome || k2.bias.isSome || v2.bias.isSome) = true) := by
            simp [hqb, hkb, hvb]
          rw [if_neg c1]
          have c2 : ¬ (q.in_features ≠ k2.in_features ∨ q.in_features ≠ v2.in_features) := by
            push_neg
            exact ⟨hkin.symm, hvin.symm⟩
          rw [if_neg c2]
          have c3 : ¬ ¬ (q.weight.dtype = k2.weight.dtype ∧ q.weight.dtype = v2.weight.dtype) := by
            push_neg
            exact ⟨hkd.symm, hvd.symm⟩
          rw [if_neg c3]
          simp

/-! Concrete fusable attention block for the witnesses: one head, per-head
dimension 40, no biases, shared `in_features` and dtype. -/

def exTensorW : Tensor :=
  ⟨[40, 4], 0, fun _ => 0⟩

def exLinQ : Linear :=
  ⟨4, 40, exTensorW, none, .torchLinear, none⟩

def exAttnC3 : PyTree :=
  .node (.crossAttn 1 none)
    [("to_q", leafLin exLinQ), ("to_k", leafLin exLinQ), ("to_v", leafLin exLinQ)] []

/-- Witness for claim C3: the concrete block with head dimension 40, no
biases, equal `in_features` and equal dtypes is fusable. -/
theorem can_use_flash_attn_check : _can_use_flash_attn exAttnC3 = true :=
  (can_use_flash_attn_iff exAttnC3 1 exLinQ (leafLin exLinQ) (leafLin exLinQ)
    rfl (by decide) rfl rfl rfl).mpr
    ⟨Or.inl rfl, exLinQ, exLinQ, rfl, rfl, rfl, rfl, rfl, rfl, rfl, rfl, rfl⟩

/-! ## Tensor operations used by the fusion

The torch operations applied in `_rewrite_attention` (lines 149-207):
`permute(1, 0)` on a 2-D tensor, `reshape` with one inferred dimension
(the `-1` slot holds the element count divided by the given dimensions),
`reshape` to explicit dimensions, and `torch.cat` of three equal-shaped
tensors along the last dimension.  Data is kept flat in row-major order, so
a reshape leaves it untouched and the other operations reindex it.
-/

def Tensor.permute10 (t : Tensor) : Tensor :=
  match t.shape with
  | [r, c] => ⟨[c, r], t.dtype, fun n => t.data (n % r * c + n / r)⟩
  | _ => t

/-- Models `x.reshape(-1, d1, d2)`. -/
def Tensor.reshape3 (t : Tensor) (d1 d2 : Nat) : Tensor :=
  ⟨[t.shape.prod / (d1 * d2), d1, d2], t.dtype, t.data⟩

/-- Models `x.reshape(-1, d)`. -/
def Tensor.reshape2 (t : Tensor) (d : Nat) : Tensor :=
  ⟨[t.shape.prod / d, d], t.dtype, t.data⟩

/-- Models a reshape to fully explicit dimensions. -/
def Tensor.reshapeTo (t : Tensor) (s : List Nat) : Tensor :=
  ⟨s, t.dtype, t.data⟩

/-- Models `torch.cat([a, b, c], dim=2)` on three `[x, y, z]` tensors. -/
def Tensor.cat3dim2 (a b c : Tensor) : Tensor :=
  match a.shape with
  | [x, y, z] =>
    ⟨[x, y, 3 * z], a.dtype, fun n =>
      let j := n % (3 * z)
      let hh := n / (3 * z) % y
      let ii := n / (3 * z) / y
      if j < z then a.data ((ii * y + hh) * z + j)
      else if j < 2 * z then b.data ((ii * y + hh) * z + (j - z))
      else c.data ((ii * y + hh) * z + (j - 2 * z))⟩
  | _ => a

/-- Models `torch.cat([a, b, c], dim=1)` on three `[y, z]` tensors. -/
def Tensor.cat3dim1 (a b c : Tensor) : Tensor :=
  match a.shape with
  | [y, z] =>
    ⟨[y, 3 * z], a.dtype, fun n =>
      let j := n % (3 * z)
      let hh := n / (3 * z)
      if j < z then a.data (hh * z + j)
      else if j < 2 * z then b.data (hh * z + (j - z))
      else c.data (hh * z + (j - 2 * z))⟩
  | _ => a

/-- Element of a 2-D tensor at row `r`, column `c`. -/
def Tensor.at2 (t : Tensor) (r c : Nat) : ℚ :=
  t.data (r * t.shape.getD 1 0 + c)

/-- Models `torch.Tensor(list)` on a plain float list. -/
def Tensor.ofList (l : List ℚ) : Tensor :=
  ⟨[l.length], 0, fun n => l.getD n 0⟩

/-! ## Attention fusion: the merged projection (source lines 149-182)

`qkv_weight` is the exact chain of lines 156-166: permute each projection
weight to `(in_features, out_features)`, reshape to
`(in_features, heads, dim_head)`, concatenate along the last dimension,
reshape to `(in_features, 3 * out_features)` and permute back.  `qkv_bias`
is lines 170-181, and `fuse_to_qkv` builds the merged `nn.Linear` of lines
152-182: input size `to_q.in_features`, output size
`to_q.out_features * 3`, bias present iff `to_q` has a bias.  (The
`requires_grad_(False)` call toggles a host-framework flag that is not
modelled.)
-/

def qkv_weight (qw kw vw : Tensor) (heads dim_head out_features : Nat) : Tensor :=
  ((Tensor.cat3dim2 ((qw.permute10).reshape3 heads dim_head)
      ((kw.permute10).reshape3 heads dim_head)
      ((vw.permute10).reshape3 heads dim_head)).reshape2 (out_features * 3)).permute10

def qkv_bias (qb kb vb : Tensor) (heads dim_head out_features : Nat) : Tensor :=
  (Tensor.cat3dim1 (qb.reshapeTo [heads, dim_head]) (kb.reshapeTo [heads, dim_head])
    (vb.reshapeTo [heads, dim_head])).reshapeTo [out_features * 3]

def zeroTensor : Tensor :=
  ⟨[], 0, fun _ => 0⟩

def fuse_to_qkv (q k v : Linear) (heads : Nat) : Linear :=
  let dim_head := q.out_features / heads
  let has_bias := q.bias.isSome
  { in_features := q.in_features
    out_features := q.out_features * 3
    weight := qkv_weight q.weight k.weight v.weight heads dim_head q.out_features
    bias :=
      if has_bias then
        some (qkv_bias (q.bias.getD zeroTensor) (k.bias.getD zeroTensor)
          (v.bias.getD zeroTensor) heads dim_head q.out_features)
      else none
    lkind := .torchLinear
    quant := none }

/-! Arithmetic helpers for the row-major index computations. -/

theorem addmul_mod (a b m : Nat) (h : b < m) : (a * m + b) % m = b := by
  rw [Nat.mul_comm a m, Nat.mul_add_mod]
  exact Nat.mod_eq_of_lt h

theorem addmul_div (a b m : Nat) (h : b < m) : (a * m + b) / m = a := by
  rw [Nat.mul_comm a m, Nat.mul_add_div (Nat.lt_of_le_of_lt (Nat.zero_le b) h),
    Nat.div_eq_of_lt h]
  omega

theorem head_slot_lt (h d heads dh : Nat) (hh : h < heads) (hd : d < dh) :
    h * dh + d < heads * dh := by
  calc h * dh + d < h * dh + dh := by omega
  _ = (h + 1) * dh := by ring
  _ ≤ heads * dh := Nat.mul_le_mul_right dh hh

/-- Data function of a permuted 2-D weight of logical shape `(r, c)`. -/
def permData (w : Tensor) (r c : Nat) : Nat → ℚ :=
  fun n => w.data (n % r * c + n / r)

/-- Data function of the head-wise concatenation of the three permuted and
reshaped projection weights. -/
def catData (qw kw vw : Tensor) (heads dh in_f : Nat) : Nat → ℚ :=
  fun n =>
    if n % (3 * dh) < dh then
      permData qw (heads * dh) in_f
        ((n / (3 * dh) / heads * heads + n / (3 * dh) % heads) * dh + n % (3 * dh))
    else if n % (3 * dh) < 2 * dh then
      permData kw (heads * dh) in_f
        ((n / (3 * dh) / heads * heads + n / (3 * dh) % heads) * dh + (n % (3 * dh) - dh))
    else
      permData vw (heads * dh) in_f
        ((n / (3 * dh) / heads * heads + n / (3 * dh) % heads) * dh + (n % (3 * dh) - 2 * dh))

theorem qkv_weight_eq (qw kw vw : Tensor) (heads dh in_f : Nat)
    (hq : qw.shape = [heads * dh, in_f]) (hk : kw.shape = [heads * dh, in_f])
    (hv : vw.shape = [heads * dh, in_f])
    (hin : 0 < in_f) (hh : 0 < heads) (hd : 0 < dh) :
    qkv_weight qw kw vw heads dh (heads * dh) =
      ⟨[heads * dh * 3, in_f], qw.dtype,
        fun n => catData qw kw vw heads dh in_f (n % in_f * (heads * dh * 3) + n / in_f)⟩ := by
  have hout : 0 < heads * dh := Nat.mul_pos hh hd
  have hcancel : in_f * (heads * dh) / (heads * dh) = in_f := Nat.mul_div_cancel in_f hout
  have hPq : qw.permute10 = ⟨[in_f, heads * dh], qw.dtype, permData qw (heads * dh) in_f⟩ := by
    rw [Tensor.permute10, hq]
    rfl
  have hPk : kw.permute10 = ⟨[in_f, heads * dh], kw.dtype, permData kw (heads * dh) in_f⟩ := by
    rw [Tensor.permute10, hk]
    rfl
  have hPv : vw.permute10 = ⟨[in_f, heads * dh], vw.dtype, permData vw (heads * dh) in_f⟩ := by
    rw [Tensor.permute10, hv]
    rfl
  have hRq : (qw.permute10).reshape3 heads dh
      = ⟨[in_f, heads, dh], qw.dtype, permData qw (heads * dh) in_f⟩ := by
    rw [hPq, Tensor.reshape3]
    simp only [List.prod_cons, List.prod_nil, Nat.mul_one, hcancel]
  have hRk : (kw.permute10).reshape3 heads dh
      = ⟨[in_f, heads, dh], kw.dtype, permData kw (heads * dh) in_f⟩ := by
    rw [hPk, Tensor.reshape3]
    simp only [List.prod_cons, List.prod_nil, Nat.mul_one, hcancel]
  have hRv : (vw.permute10).reshape3 heads dh
      = ⟨[in_f, heads, dh], vw.dtype, permData vw (heads * dh) in_f⟩ := by
    rw [hPv, Tensor.reshape3]
    simp only [List.prod_cons, List.prod_nil, Nat.mul_one, hcancel]
  have hC : Tensor.cat3dim2
      ⟨[in_f, heads, dh], qw.dtype, permData qw (heads * dh) in_f⟩
      ⟨[in_f, heads, dh], kw.dtype, permData kw (heads * dh) in_f⟩
      ⟨[in_f, heads, dh], vw.dtype, permData vw (heads * dh) in_f⟩
      = ⟨[in_f, heads, 3 * dh], qw.dtype, catData qw kw vw heads dh in_f⟩ := by
    rw [Tensor.cat3dim2]
    rfl
  have hprod2 : in_f * (heads * (3 * dh)) / (heads * dh * 3) = in_f := by
    rw [show heads * (3 * dh) = heads * dh * 3 by ring]
    exact Nat.mul_div_cancel in_f (by omega)
  have hR2 : (⟨[in_f, heads, 3 * dh], qw.dtype, catData qw kw vw heads dh in_f⟩ :
      Tensor).reshape2 (heads * dh * 3)
      = ⟨[in_f, heads * dh * 3], qw.dtype, catData qw kw vw heads dh in_f⟩ := by
    rw [Tensor.reshape2]
    simp only [List.prod_cons, List.prod_nil, Nat.mul_one, hprod2]
  have hM : (⟨[in_f, heads * dh * 3], qw.dtype, catData qw kw vw heads dh in_f⟩ :
      Tensor).permute10
      = ⟨[heads * dh * 3, in_f], qw.dtype,
        fun n => catData qw kw vw heads dh in_f (n % in_f * (heads * dh * 3) + n / in_f)⟩ := by
    rw [Tensor.permute10]
  rw [qkv_weight, hRq, hRk, hRv, hC, hR2, hM]

theorem qkv_weight_interleave (qw kw vw : Tensor) (heads dh in_f : Nat)
    (hq : qw.shape = [heads * dh, in_f]) (hk : kw.shape = [heads * dh, in_f])
    (hv : vw.shape = [heads * dh, in_f])
    (hin : 0 < in_f) (hh : 0 < heads) (hd : 0 < dh)
    (h d i : Nat) (hhh : h < heads) (hdd : d < dh) (hii : i < in_f) :
    (qkv_weight qw kw vw heads dh (heads * dh)).at2 (h * (3 * dh) + d) i
        = qw.at2 (h * dh + d) i ∧
    (qkv_weight qw kw vw heads dh (heads * dh)).at2 (h * (3 * dh) + dh + d) i
        = kw.at2 (h * dh + d) i ∧
    (qkv_weight qw kw vw heads dh (heads * dh)).at2 (h * (3 * dh) + 2 * dh + d) i
        = vw.at2 (h * dh + d) i := by
  rw [qkv_weight_eq qw kw vw heads dh in_f hq hk hv hin hh hd]
  have hslot : h * dh + d < heads * dh := head_slot_lt h d heads dh hhh hdd
  refine ⟨?_, ?_, ?_⟩
  · simp only [Tensor.at2, hq, List.getD_cons_succ, List.getD_cons_zero]
    rw [addmul_mod (h * (3 * dh) + d) i in_f hii,
      addmul_div (h * (3 * dh) + d) i in_f hii]
    rw [show i * (heads * dh * 3) + (h * (3 * dh) + d)
      = (i * heads + h) * (3 * dh) + d from by ring]
    simp only [catData]
    rw [addmul_mod (i * heads + h) d (3 * dh) (by omega),
      addmul_div (i * heads + h) d (3 * dh) (by omega)]
    rw [addmul_mod i h heads hhh, addmul_div i h heads hhh]
    rw [if_pos hdd]
    simp only [permData]
    rw [show (i * heads + h) * dh + d = i * (heads * dh) + (h * dh + d) from by ring]
    rw [addmul_mod i (h * dh + d) (heads * dh) hslot,
      addmul_div i (h * dh + d) (heads * dh) hslot]
  · simp only [Tensor.at2, hk, List.getD_cons_succ, List.getD_cons_zero]
    rw [addmul_mod (h * (3 * dh) + dh + d) i in_f hii,
      addmul_div (h * (3 * dh) + dh + d) i in_f hii]
    rw [show i * (heads * dh * 3) + (h * (3 * dh) + dh + d)
      = (i * heads + h) * (3 * dh) + (dh + d) from by ring]
    simp only [catData]
    rw [addmul_mod (i * heads + h) (dh + d) (3 * dh) (by omega),
      addmul_div (i * heads + h) (dh + d) (3 * dh) (by omega)]
    rw [addmul_mod i h heads hhh, addmul_div i h heads hhh]
    rw [if_neg (by omega), if_pos (by omega)]
    simp only [permData]
    rw [show dh + d - dh = d from by omega]
    rw [show (i * heads + h) * dh + d = i * (heads * dh) + (h * dh + d) from by ring]
    rw [addmul_mod i (h * dh + d) (heads * dh) hslot,
      addmul_div i (h * dh + d) (heads * dh) hslot]
  · simp only [Tensor.at2, hv, List.getD_cons_succ, List.getD_cons_zero]
    rw [addmul_mod (h * (3 * dh) + 2 * dh + d) i in_f hii,
      addmul_div (h * (3 * dh) + 2 * dh + d) i in_f hii]
    rw [show i * (heads * dh * 3) + (h * (3 * dh) + 2 * dh + d)
      = (i * heads + h) * (3 * dh) + (2 * dh + d) from by ring]
    simp only [catData]
    rw [addmul_mod (i * heads + h) (2 * dh + d) (3 * dh) (by omega),
      addmul_div (i * heads + h) (2 * dh + d) (3 * dh) (by omega)]
    rw [addmul_mod i h heads hhh, addmul_div i h heads hhh]
    rw [if_neg (by omega), if_neg (by omega)]
    simp only [permData]
    rw [show 2 * dh + d - 2 * dh = d from by omega]
    rw [show (i * heads + h) * dh + d = i * (heads * dh) + (h * dh + d) from by ring]
    rw [addmul_mod i (h * dh + d) (heads * dh) hslot,
      addmul_div i (h * dh + d) (heads * dh) hslot]

/-- Claim C1: for a fused attention block (three projections of shape
`out_features × in_features` with `out_features = heads * dim_head`), the
merged projection built by the fusion has input size equal to the shared
`in_features`, output size three times the original `out_features`, bias
present iff the query projection had bias, and a merged weight whose rows
are interleaved per attention head — for head `h`, rows
`h * 3 * dim_head .. h * 3 * dim_head + 3 * dim_head - 1` hold the query,
key and value blocks of head `h` in that order, each block equal to the
corresponding slice of the original projection weight (not grouped as
`[all q, all k, all v]`). -/
theorem fused_projection_layout (q k v : Linear) (heads dh : Nat)
    (hout : q.out_features = heads * dh)
    (hqs : q.weight.shape = [q.out_features, q.in_features])
    (hks : k.weight.shape = [q.out_features, q.in_features])
    (hvs : v.weight.shape = [q.out_features, q.in_features])
    (hin : 0 < q.in_features) (hh : 0 < heads) (hd : 0 < dh) :
    (fuse_to_qkv q k v heads).in_features = q.in_features ∧
    (fuse_to_qkv q k v heads).out_features = 3 * q.out_features ∧
    ((fuse_to_qkv q k v heads).bias.isSome ↔ q.bias.isSome) ∧
    (fuse_to_qkv q k v heads).weight.shape = [3 * q.out_features, q.in_features] ∧
    ∀ h d i, h < heads → d < dh → i < q.in_features →
      ((fuse_to_qkv q k v heads).weight.at2 (h * (3 * dh) + d) i
          = q.weight.at2 (h * dh + d) i ∧
       (fuse_to_qkv q k v heads).weight.at2 (h * (3 * dh) + dh + d) i
          = k.weight.at2 (h * dh + d) i ∧
       (fuse_to_qkv q k v heads).weight.at2 (h * (3 * dh) + 2 * dh + d) i
          = v.weight.at2 (h * dh + d) i) := by
  have hdim : q.out_features / heads = dh := by
    rw [hout]
    exact Nat.mul_div_cancel_left dh hh
  have hqs2 : q.weight.shape = [heads * dh, q.in_features] := by rw [hqs, hout]
  have hks2 : k.weight.shape = [heads * dh, q.in_features] := by rw [hks, hout]
  have hvs2 : v.weight.shape = [heads * dh, q.in_features] := by rw [hvs, hout]
  refine ⟨rfl, by simp [fuse_to_qkv]; ring, ?_, ?_, ?_⟩
  · simp only [fuse_to_qkv]
    cases hb : q.bias <;> simp [hb]
  · show (qkv_weight q.weight k.weight v.weight heads (q.out_features / heads)
      q.out_features).shape = [3 * q.out_features, q.in_features]
    rw [hdim, hout]
    rw [qkv_weight_eq q.weight k.weight v.weight heads dh q.in_features
      hqs2 hks2 hvs2 hin hh hd]
    rw [show heads * dh * 3 = 3 * (heads * dh) from by ring]
  · intro h d i hhh hdd hii
    show ((qkv_weight q.weight k.weight v.weight heads (q.out_features / heads)
        q.out_features).at2 (h * (3 * dh) + d) i = q.weight.at2 (h * dh + d) i ∧
      (qkv_weight q.weight k.weight v.weight heads (q.out_features / heads)
        q.out_features).at2 (h * (3 * dh) + dh + d) i = k.weight.at2 (h * dh + d) i ∧
      (qkv_weight q.weight k.weight v.weight heads (q.out_features / heads)
        q.out_features).at2 (h * (3 * dh) + 2 * dh + d) i = v.weight.at2 (h * dh + d) i)
    rw [hdim, hout]
    exact qkv_weight_interleave q.weight k.weight v.weight heads dh q.in_features
      hqs2 hks2 hvs2 hin hh hd h d i hhh hdd hii

/-! Concrete projections for the fusion witness: two heads, per-head
dimension 40, `in_features` 2, weights filled with distinct values. -/

def exTensorQ : Tensor :=
  ⟨[80, 2], 0, fun n => n⟩

def exTensorK : Tensor :=
  ⟨[80, 2], 0, fun n => n + 1000⟩

def exTensorV : Tensor :=
  ⟨[80, 2], 0, fun n => n + 2000⟩

def exProjQ : Linear :=
  ⟨2, 80, exTensorQ, none, .torchLinear, none⟩

def exProjK : Linear :=
  ⟨2, 80, exTensorK, none, .torchLinear, none⟩

def exProjV : Linear :=
  ⟨2, 80, exTensorV, none, .torchLinear, none⟩

/-- Witness for claim C1 at a concrete two-head block with per-head
dimension 40. -/
theorem fused_projection_layout_check :
    (fuse_to_qkv exProjQ exProjK exProjV 2).in_features = exProjQ.in_features ∧
    (fuse_to_qkv exProjQ exProjK exProjV 2).out_features = 3 * exProjQ.out_features ∧
    ((fuse_to_qkv exProjQ exProjK exProjV 2).bias.isSome ↔ exProjQ.bias.isSome) ∧
    (fuse_to_qkv exProjQ exProjK exProjV 2).weight.shape
      = [3 * exProjQ.out_features, exProjQ.in_features] ∧
    ∀ h d i, h < 2 → d < 40 → i < exProjQ.in_features →
      ((fuse_to_qkv exProjQ exProjK exProjV 2).weight.at2 (h * (3 * 40) + d) i
          = exProjQ.weight.at2 (h * 40 + d) i ∧
       (fuse_to_qkv exProjQ exProjK exProjV 2).weight.at2 (h * (3 * 40) + 40 + d) i
          = exProjK.weight.at2 (h * 40 + d) i ∧
       (fuse_to_qkv exProjQ exProjK exProjV 2).weight.at2 (h * (3 * 40) + 2 * 40 + d) i
          = exProjV.weight.at2 (h * 40 + d) i) :=
  fused_projection_layout exProjQ exProjK exProjV 2 40 rfl rfl rfl rfl
    (by decide) (by decide) (by decide)

/-! ## Quantized fusion re-wrap and the scoped flag override (lines 184-207)

When the query projection is one of the two quantized wrapper classes, the
fusion merges the three per-channel calibration scale vectors with the same
per-head interleave, builds a merged calibration triple reusing the query
projection's top-level scale and bit flag, saves the current value of
`ONEFLOW_FUSE_QUANT_TO_MATMUL`, forces it to `"0"`, invokes the wrapper
class constructor on the merged projection, assigns the attention scale,
and writes the saved value back.  There is no `try/finally`: when the
constructor raises, the two statements after it — including the restore —
never run, and the exception propagates with the flag still `"0"`.

The constructor `cls(attn.to_qkv, nbits, calibrate, name)` is external; it
is the `factory` parameter below, which also receives the flag value in
effect during the call.  The environment is modelled as the value of this
single flag (the only one read in the source file).
-/

/-- Merged per-channel weight scale of the three projections (lines
188-199): each `calibrate[2]` list becomes a `(heads, dim_head)` tensor,
the three are concatenated along dim 1 and flattened. -/
def merged_weight_scale (csq csk csv : List ℚ) (heads dim_head out_features : Nat) : Tensor :=
  (Tensor.cat3dim1 ((Tensor.ofList csq).reshapeTo [heads, dim_head])
    ((Tensor.ofList csk).reshapeTo [heads, dim_head])
    ((Tensor.ofList csv).reshapeTo [heads, dim_head])).reshapeTo [out_features * 3]

/-- The external quantized-wrapper constructor: class kind, the merged
projection, `nbits`, the merged calibration triple, the identifying name,
and the flag value it observes. -/
def QFactory : Type :=
  QKind → Linear → Nat → (ℚ × Int × Tensor) → String → String → Except PyErr Linear

def PyTree.setAttrNode (t : PyTree) (name : String) (v : PyTree) : PyTree :=
  match t with
  | .node p attrs items => .node p (setAssoc attrs name v) items

/-- Records the `attn.scale = dim_head ** -0.5` assignment of line 205: the
payload keeps the `dim_head` whose inverse square root was assigned (the
irrational float itself is outside the rational data model). -/
def PyTree.setScaleDimHead (t : PyTree) (dh : Nat) : PyTree :=
  match t with
  | .node (.crossAttn heads _) attrs items => .node (.crossAttn heads (some dh)) attrs items
  | t => t

/-- The attention rewrite (lines 149-207).  Returns the Python outcome (ok,
or a propagating exception), the block state after whatever statements ran,
and the flag value after the call. -/
def _rewrite_attention (factory : QFactory) (attn : PyTree) (env : String) :
    Except PyErr Unit × PyTree × String :=
  match attn.headsOf, attn.linAttr "to_q", attn.linAttr "to_k", attn.linAttr "to_v" with
  | some heads, some q, some k, some v =>
    let dim_head := q.out_features / heads
    let to_qkv := fuse_to_qkv q k v heads
    let attn1 := attn.setAttrNode "to_qkv" (leafLin to_qkv)
    match q.quant with
    | none => (.ok (), attn1, env)
    | some qi =>
      match k.quant, v.quant with
      | some qk, some qv =>
        let weight_scale := merged_weight_scale qi.calibrate.channel_scales
          qk.calibrate.channel_scales qv.calibrate.channel_scales heads dim_head
          q.out_features
        let calibrate := (qi.calibrate.scale, qi.calibrate.bit_flag, weight_scale)
        let old_env := env
        let env2 := "0"
        match factory qi.kind to_qkv qi.nbits calibrate qi.qname env2 with
        | .ok qlin =>
          let attn2 := (attn1.setAttrNode "to_qkv" (leafLin qlin)).setScaleDimHead dim_head
          (.ok (), attn2, old_env)
        | .error e => (.error e, attn1, env2)
      | _, _ => (.error .attributeError, attn1, env)
  | _, _, _, _ => (.error .attributeError, attn, env)

/-- Claim C2, amended: during the fusion re-wrap the flag is forced to
`"0"` for the factory call (the outcome is determined by the factory's
behaviour at flag `"0"`); on a normal factory return the flag is restored
to its prior value; when the factory raises, the restore statement never
runs — the flag stays `"0"` — and the exception propagates. -/
theorem rewrap_flag_scoping (factory : QFactory) (attn : PyTree) (env0 : String)
    (heads : Nat) (q k v : Linear) (qi qk qv : QuantInfo)
    (hh : attn.headsOf = some heads)
    (hq : attn.linAttr "to_q" = some q) (hk : attn.linAttr "to_k" = some k)
    (hv : attn.linAttr "to_v" = some v)
    (hqi : q.quant = some qi) (hqk : k.quant = some qk) (hqv : v.quant = some qv) :
    (∀ r, factory qi.kind (fuse_to_qkv q k v heads) qi.nbits
        (qi.calibrate.scale, qi.calibrate.bit_flag,
          merged_weight_scale qi.calibrate.channel_scales qk.calibrate.channel_scales
            qv.calibrate.channel_scales heads (q.out_features / heads) q.out_features)
        qi.qname "0" = .ok r →
      (_rewrite_attention factory attn env0).1 = .ok () ∧
      (_rewrite_attention factory attn env0).2.2 = env0) ∧
    (∀ e, factory qi.kind (fuse_to_qkv q k v heads) qi.nbits
        (qi.calibrate.scale, qi.calibrate.bit_flag,
          merged_weight_scale qi.calibrate.channel_scales qk.calibrate.channel_scales
            qv.calibrate.channel_scales heads (q.out_features / heads) q.out_features)
        qi.qname "0" = .error e →
      (_rewrite_attention factory attn env0).1 = .error e ∧
      (_rewrite_attention factory attn env0).2.2 = "0") := by
  constructor
  · intro r hr
    rw [_rewrite_attention, hh, hq, hk, hv]
    dsimp only
    rw [hqi, hqk, hqv]
    dsimp only
    rw [hr]
    exact ⟨rfl, rfl⟩
  · intro e he
    rw [_rewrite_attention, hh, hq, hk, hv]
    dsimp only
    rw [hqi, hqk, hqv]
    dsimp only
    rw [he]
    exact ⟨rfl, rfl⟩

/-! Concrete quantized attention block and factories for the C2
counterexample and witness. -/

def exCalC2 : Calib :=
  ⟨1, 8, [1]⟩

def exQI : QuantInfo :=
  ⟨.staticQuant, 8, exCalC2, "blk.to_q"⟩

def exProjQQ : Linear :=
  ⟨2, 80, exTensorQ, none, .torchLinear, some exQI⟩

def exProjKK : Linear :=
  ⟨2, 80, exTensorK, none, .torchLinear, some exQI⟩

def exProjVV : Linear :=
  ⟨2, 80, exTensorV, none, .torchLinear, some exQI⟩

def exAttnC2 : PyTree :=
  .node (.crossAttn 2 none)
    [("to_q", leafLin exProjQQ), ("to_k", leafLin exProjKK), ("to_v", leafLin exProjVV)] []

def failFactory : QFactory :=
  fun _ _ _ _ _ _ => .error (.external "factory failure")

def okFactory : QFactory :=
  fun _ l _ _ _ _ => .ok l

/-- Counterexample to claim C2 as stated: with the flag at `"1"` before the
re-wrap and a factory that raises, the exception propagates and the flag
afterwards is `"0"`, not the prior `"1"` — there is no `try/finally`, so
the restore is skipped on the exception path. -/
theorem scoped_flag_restore_fails :
    (_rewrite_attention failFactory exAttnC2 "1").1 = .error (.external "factory failure") ∧
    (_rewrite_attention failFactory exAttnC2 "1").2.2 = "0" ∧
    ("0" : String) ≠ "1" :=
  ⟨rfl, rfl, by decide⟩

/-- Witness for the amended claim C2: on a normal factory return the flag
is restored to the prior `"1"`, and on a raising factory it stays `"0"`. -/
theorem rewrap_flag_scoping_check :
    ((_rewrite_attention okFactory exAttnC2 "1").1 = .ok () ∧
     (_rewrite_attention okFactory exAttnC2 "1").2.2 = "1") ∧
    ((_rewrite_attention failFactory exAttnC2 "1").1 = .error (.external "factory failure") ∧
     (_rewrite_attention failFactory exAttnC2 "1").2.2 = "0") :=
  ⟨(rewrap_flag_scoping okFactory exAttnC2 "1" 2 exProjQQ exProjKK exProjVV exQI exQI exQI
      rfl rfl rfl rfl rfl rfl rfl).1 (fuse_to_qkv exProjQQ exProjKK exProjVV 2) rfl,
   (rewrap_flag_scoping failFactory exAttnC2 "1" 2 exProjQQ exProjKK exProjVV exQI exQI exQI
      rfl rfl rfl rfl rfl rfl rfl).2 (.external "factory failure") rfl⟩

/-! ## Entry point: `replace_module_with_quantizable_module` (lines 210-251)

The quantization loop is fail-fast: resolve each calibrated path, coerce a
comfy Linear class tag to the plain torch one, convert the weight to int8
storage, call the external `get_quantize_module` factory, and rebind the
result; any exception propagates out of the entry point.  The attention
fusion that follows is wrapped in `try/except Exception: print(e)`: the
matcher finds fusable `CrossAttentionPytorch` blocks, each block whose
`<path>.to_q` is calibrated is rewritten (the others produce a skip
diagnostic), and any exception of the whole fusion pass is caught at the
top and only printed.

The source mutates matched blocks in place through the alias held in the
match dictionary; the pure model writes the updated block back at its
matched path, which is equivalent because matched frontier paths are
disjoint and never nested.  Diagnostics printed to stdout are collected in
a log list.
-/

def matchCrossAttnFusable (t : PyTree) : Bool :=
  t.isCrossAttn && _can_use_flash_attn t

def errString : PyErr → String
  | .moduleNotFound msg => msg
  | .indexError => "IndexError"
  | .attributeError => "AttributeError"
  | .valueError => "ValueError"
  | .external msg => msg

def fusion_loop (factory : QFactory) (info : List (String × Calib)) :
    List (String × PyTree) → PyTree → String → List String →
    Except PyErr Unit × PyTree × List String × String
  | [], tree, env, logs => (.ok (), tree, logs, env)
  | (k, v) :: rest, tree, env, logs =>
    if (lookupAssoc info (k ++ ".to_q")).isSome then
      match _rewrite_attention factory v env with
      | (.ok _, v2, env2) =>
        let m := modify_sub_module tree k v2
        match m.1 with
        | .ok _ => fusion_loop factory info rest m.2 env2 logs
        | .error e => (.error e, m.2, logs, env2)
      | (.error e, v2, env2) =>
        let m := modify_sub_module tree k v2
        (.error e, m.2, logs, env2)
    else
      fusion_loop factory info rest tree env
        (logs ++ ["skip " ++ k ++ ".to_q not in calibrate_info"])

/-- The body of the `try` block (lines 236-248). -/
def attention_fusion_pass (factory : QFactory) (info : List (String × Calib))
    (tree : PyTree) (env : String) : Except PyErr Unit × PyTree × List String × String :=
  let ms := search_modules tree matchCrossAttnFusable ""
  fusion_loop factory info ms tree env
    ["rewrite " ++ toString ms.length ++ " CrossAttentionPytorch"]

/-- The `try/except Exception as e: print(e)` wrapper (lines 235-251): a
failing pass is converted into a diagnostic, never re-raised. -/
def attention_fusion_phase (factory : QFactory) (info : List (String × Calib))
    (tree : PyTree) (env : String) : PyTree × List String × String :=
  match attention_fusion_pass factory info tree env with
  | (.ok _, t, logs, e) => (t, logs, e)
  | (.error err, t, logs, e) => (t, logs ++ [errString err], e)

/-- The external `get_quantize_module` factory: node, path name, calibration
record (the constant arguments `fake_quant=False, static=False, nbits=8,
convert_fn=maybe_allow_in_graph` of line 224-232 are fixed at the call site
and folded into the abstract function). -/
def GQM : Type :=
  Linear → String → Calib → Except PyErr Linear

def int8Tag : Nat :=
  1

/-- Lines 217-223: coerce a comfy Linear class tag to the plain torch
Linear, and convert the weight storage to int8 (the gradient-tracking
toggle and the `.cuda()` device move touch host-framework state that is not
modelled). -/
def quant_prepare (l : Linear) : Linear :=
  let l2 := if l.lkind = LKind.comfyLinear then
    { l with lkind := LKind.torchLinear } else l
  { l2 with weight := { l2.weight with dtype := int8Tag } }

/-- The fail-fast quantization loop (lines 214-233), iterating in the
mapping's insertion order. -/
def quant_loop (gqm : GQM) : List (String × Calib) → PyTree → Except PyErr PyTree
  | [], tree => .ok tree
  | (sub_module_name, ci) :: rest, tree =>
    match get_sub_module tree sub_module_name with
    | .error e => .error e
    | .ok sub =>
      match sub.payload with
      | .lin l =>
        match gqm (quant_prepare l) sub_module_name ci with
        | .error e => .error e
        | .ok qmod =>
          let m := modify_sub_module tree sub_module_name (leafLin qmod)
          match m.1 with
          | .ok _ => quant_loop gqm rest m.2
          | .error e => .error e
      | _ => .error .attributeError

/-- The `_use_graph` configurator restricted to the one flag the file reads
back: line 33 sets `ONEFLOW_FUSE_QUANT_TO_MATMUL` to `"0"`. -/
def use_graph_flag (_ : String) : String :=
  "0"

def replace_module_with_quantizable_module (gqm : GQM) (factory : QFactory)
    (diffusion_model : PyTree) (calibrate_lines : List String) (env : String) :
    Except PyErr (PyTree × List String × String) :=
  let env1 := use_graph_flag env
  match _load_calibrate_info calibrate_lines with
  | .error e => .error e
  | .ok calibrate_info =>
    match quant_loop gqm calibrate_info diffusion_model with
    | .error e => .error e
    | .ok t1 => .ok (attention_fusion_phase factory calibrate_info t1 env1)

/-- Claim C9: once the calibration file loads and the fail-fast
quantization loop succeeds, the entry point returns normally for every
behaviour of the fusion-phase factory — an exception anywhere in the
attention-fusion pass is caught at the top of the pass and turned into an
appended diagnostic, never propagated to the caller. -/
theorem fusion_errors_never_propagate (gqm : GQM) (factory : QFactory)
    (tree : PyTree) (lines : List String) (env : String)
    (info : List (String × Calib)) (t1 : PyTree)
    (hload : _load_calibrate_info lines = .ok info)
    (hquant : quant_loop gqm info tree = .ok t1) :
    (∃ res, replace_module_with_quantizable_module gqm factory tree lines env = .ok res) ∧
    (∀ e t2 logs env2,
      attention_fusion_pass factory info t1 (use_graph_flag env)
        = (.error e, t2, logs, env2) →
      replace_module_with_quantizable_module gqm factory tree lines env
        = .ok (t2, logs ++ [errString e], env2)) := by
  constructor
  · refine ⟨attention_fusion_phase factory info t1 (use_graph_flag env), ?_⟩
    rw [replace_module_with_quantizable_module]
    rw [hload]
    dsimp only
    rw [hquant]
  · intro e t2 logs env2 hpass
    rw [replace_module_with_quantizable_module]
    rw [hload]
    dsimp only
    rw [hquant]
    dsimp only
    rw [attention_fusion_phase, hpass]

/-- Witness for claim C9: on a concrete tree holding a quantized fusable
attention block, with an empty calibration file and a factory that always
raises, the entry point still returns normally. -/
theorem fusion_errors_never_propagate_check :
    ∃ res, replace_module_with_quantizable_module (fun l _ _ => .ok l) failFactory
      (.node .container [("blk", exAttnC2)] []) [] "1" = .ok res :=
  (fusion_errors_never_propagate (fun l _ _ => .ok l) failFactory
    (.node .container [("blk", exAttnC2)] []) [] "1" [] _ rfl rfl).1
